import Mathlib

/-!
Verification of the paginated fetch-and-persist pipeline of `fetch_papers.py`
(`SemanticScholarFetcher`): the rate-limited retrying fetcher `_make_request`,
the rate limiter `_wait_for_rate_limit`, and the size-bounded splitting writer
`search_papers_with_split`.

Shallow embedding conventions:
* A decoded JSON response body is `ApiResult`: the three keys the code reads
  (`total`, `data`, `token`), plus a count of any other keys, so that Python's
  dict truthiness (`if not result: break`) is expressible (`isEmptyObj`).
* A record (`paper`) is abstracted by the two quantities the writer uses: the
  byte length of its serialized JSON line (`json.dumps(paper) + "\n"` encoded
  as UTF-8) and its optional `citationCount`.
* The network is an oracle: `_make_request`'s attempt loop consumes a list of
  `AttemptOutcome`s (one per attempt, list length = `max_retries`); the writer
  loop consumes a list of `FetchStep`s, one per `_make_request` call, each
  carrying the call's result plus a fault script for file operations
  (`open`/`write` raising an `OSError`), so that the cleanup guarantee can be
  checked on every exit path.
* Time is modelled by a rational-valued clock: `time.sleep(d)` advances it by
  at least `d` (the surplus is an explicit nonnegative drift), and arbitrary
  nonnegative time passes between operations.
* Python file objects: `close()` on an already-closed file is a no-op
  (`IOBase.close`); `FileRec.closeCount` counts the state-changing closes.
-/

namespace PaperFetch

/-- One result record, abstracted to what `search_papers_with_split` reads:
the UTF-8 byte length of `json.dumps(paper, ensure_ascii=False) + "\n"`
(line 236-237) and the optional `citationCount` field (line 260). -/
structure Paper where
  lineSize : Nat
  citationCount : Option Int
deriving DecidableEq, Repr

/-- A decoded JSON response object: the keys the code reads (`total`, `data`,
`token`) plus the number of other keys present (for dict truthiness). -/
structure ApiResult where
  total : Option Int
  data : Option (List Paper)
  token : Option String
  extraKeys : Nat
deriving DecidableEq, Repr

/-- Python truthiness of the decoded dict: `not result` holds iff the dict is
empty, i.e. no key at all is present. -/
def ApiResult.isEmptyObj (r : ApiResult) : Bool :=
  r.total.isNone && r.data.isNone && r.token.isNone && r.extraKeys == 0

/-- What one HTTP attempt inside `_make_request` does (line 62-74):
a 2xx response with decoded body, an HTTP 429 response, or a
`requests.exceptions.RequestException` (connection error, timeout, or a
non-2xx status raised by `response.raise_for_status()`). -/
inductive AttemptOutcome where
  | success (body : ApiResult)
  | rateLimited
  | requestError
deriving DecidableEq, Repr

def AttemptOutcome.isSuccess : AttemptOutcome → Bool
  | .success _ => true
  | _ => false

/-- How a `_make_request` call ends: returning a decoded page, returning
`None` after the attempt loop falls through (line 82), or raising (line 80). -/
inductive FetchResult where
  | page (body : ApiResult)
  | exhausted
  | raised
deriving DecidableEq, Repr

/-- The attempt loop of `_make_request` (lines 57-82).  `i` is the current
0-indexed `attempt`; the list holds the outcomes of the remaining attempts
(initially of length `max_retries`).  Returns the call's result, the list of
backoff sleeps `time.sleep((2 ** attempt) * rate_limit_delay)` performed
(lines 66-68 and 77-78), and the number of attempts consumed.
On 429 the loop sleeps and continues; on a `RequestException` it sleeps and
retries unless this was the final attempt (`attempt == max_retries - 1`,
i.e. the remainder list is a singleton), in which case it re-raises. -/
def runAttempts (δ : ℚ) : Nat → List AttemptOutcome → FetchResult × List ℚ × Nat
  | _, [] => (.exhausted, [], 0)
  | i, o :: rest =>
    match o with
    | .success body => (.page body, [], 1)
    | .rateLimited =>
      let r := runAttempts δ (i + 1) rest
      (r.1, (2 : ℚ) ^ i * δ :: r.2.1, r.2.2 + 1)
    | .requestError =>
      if rest.isEmpty then (.raised, [], 1)
      else
        let r := runAttempts δ (i + 1) rest
        (r.1, (2 : ℚ) ^ i * δ :: r.2.1, r.2.2 + 1)

/-- `_make_request` with `rate_limit_delay = δ`; `outcomes` has one entry per
attempt the server would answer, of length `max_retries`. -/
def makeRequest (δ : ℚ) (outcomes : List AttemptOutcome) :
    FetchResult × List ℚ × Nat :=
  runAttempts δ 0 outcomes

/-- The rate limiter state: the current wall clock and the instance field
`self.last_request_time` (line 33). -/
structure Clock where
  now : ℚ
  lastRequestTime : ℚ
deriving DecidableEq, Repr

/-- `_wait_for_rate_limit` (lines 35-40): read `elapsed = time.time() -
self.last_request_time`; if `elapsed < δ`, `time.sleep(δ - elapsed)`; then
`self.last_request_time = time.time()`.  `drift ≥ 0` is the extra real time
the call takes beyond the mandated sleep (sleep overshoot plus the time
between the two `time.time()` reads). -/
def waitForRateLimit (δ : ℚ) (drift : ℚ) (c : Clock) : Clock :=
  let elapsed := c.now - c.lastRequestTime
  let t := if elapsed < δ then c.now + (δ - elapsed) + drift else c.now + drift
  ⟨t, t⟩

/-- The sequence of request issue times (`self.last_request_time` right after
each `_wait_for_rate_limit` returns, line 40, which is when line 62 issues the
GET).  Each script entry `(gap, drift)` gives the nonnegative wall time that
passes before the wait (the HTTP round trip, backoff sleeps, processing) and
the wait call's own drift. -/
def requestTimes (δ : ℚ) : List (ℚ × ℚ) → Clock → List ℚ
  | [], _ => []
  | (gap, drift) :: rest, c =>
    let c1 := waitForRateLimit δ drift ⟨c.now + gap, c.lastRequestTime⟩
    c1.lastRequestTime :: requestTimes δ rest c1

/-- A fault injected at a record-write step of the splitting writer:
`writeFail` makes `current_file.write(json_line)` (line 255) raise,
`openFail` makes the rollover `open(filename, "w")` (line 249) raise. -/
inductive Fault where
  | ok
  | writeFail
  | openFail
deriving DecidableEq, Repr

/-- One output file: its name, the byte sizes of the lines written to it (in
order; `current_file_size` of line 256 is their sum), whether it has been
closed, and how many state-changing `close()` calls it has received
(Python's `close()` on an already-closed file has no effect). -/
structure FileRec where
  name : String
  lines : List Nat
  isClosed : Bool
  closeCount : Nat
deriving DecidableEq, Repr

/-- `current_file_size`: the accumulated byte size of the file. -/
def FileRec.size (f : FileRec) : Nat := f.lines.sum

/-- `f.close()` with Python semantics: a no-op if already closed. -/
def closeFile (f : FileRec) : FileRec :=
  if f.isClosed then f else { f with isClosed := true, closeCount := f.closeCount + 1 }

/-- The environment's answer to one `_make_request` call inside the writer
loop, plus the fault script for the file operations performed on that page's
records (one entry per record; missing entries mean no fault). -/
structure FetchStep where
  result : FetchResult
  faults : List Fault
deriving DecidableEq, Repr

/-- The whole environment of one `search_papers_with_split` run: whether the
initial `open` (line 211) raises, and the scripted fetch results. -/
structure Env where
  firstOpenFail : Bool
  fetches : List FetchStep
deriving DecidableEq, Repr

/-- The mutable state of the `search_papers_with_split` loop.  `files` holds
the files created so far, newest first (the head is `current_file`, the last
element is the first file created); `requestTokens` records the `token` query
parameter of each `_make_request` call issued, in order. -/
structure WState where
  files : List FileRec
  fileIndex : Nat
  fetchedCount : Nat
  citations : List Int
  totalResults : Int
  pageNum : Nat
  requestTokens : List (Option String)
  paramsToken : Option String
  raised : Bool
deriving DecidableEq, Repr

/-- The name of the `k`-th file created (1-indexed), lines 206-209 and 248:
`{base}.jsonl` for the first, `{base}_part{k}.jsonl` afterwards. -/
def fileName (base : String) (k : Nat) : String :=
  if k = 1 then base ++ ".jsonl" else base ++ "_part" ++ toString k ++ ".jsonl"

/-- Lines 260-261: `citations.append(paper["citationCount"])` when present. -/
def appendCitation (p : Paper) (cs : List Int) : List Int :=
  match p.citationCount with
  | Option.none => cs
  | some c => cs ++ [c]

/-- The body of `for paper in papers` (lines 234-261) for one record.  The
rollover check (line 240) is `current_file_size + line_size > max_size_bytes
and fetched_count > 0`; on rollover the current file is closed and
`{base}_part{current_file_index + 1}.jsonl` is opened (lines 242-252); then
the line is written and the counters updated (lines 255-261).  A raised
fault aborts the run (`raised := true`); once raised, nothing further runs. -/
def writePaper (T : Nat) (base : String) (p : Paper) (fault : Fault)
    (s : WState) : WState :=
  if s.raised then s else
  match s.files with
  | [] => s
  | cur :: rest =>
    if T < cur.size + p.lineSize ∧ 0 < s.fetchedCount then
      let closedCur := closeFile cur
      match fault with
      | .openFail => { s with files := closedCur :: rest, raised := true }
      | .writeFail =>
        { s with
            files := ⟨base ++ "_part" ++ toString (s.fileIndex + 1) ++ ".jsonl",
                      [], false, 0⟩ :: closedCur :: rest,
            fileIndex := s.fileIndex + 1, raised := true }
      | .ok =>
        { s with
            files := ⟨base ++ "_part" ++ toString (s.fileIndex + 1) ++ ".jsonl",
                      [p.lineSize], false, 0⟩ :: closedCur :: rest,
            fileIndex := s.fileIndex + 1,
            fetchedCount := s.fetchedCount + 1,
            citations := appendCitation p s.citations }
    else
      match fault with
      | .writeFail => { s with raised := true }
      | _ =>
        { s with
            files := { cur with lines := cur.lines ++ [p.lineSize] } :: rest,
            fetchedCount := s.fetchedCount + 1,
            citations := appendCitation p s.citations }

/-- The inner `for paper in papers` loop over one page's record list. -/
def writePapers (T : Nat) (base : String) :
    List Paper → List Fault → WState → WState
  | [], _, s => s
  | p :: ps, fs, s =>
    writePapers T base ps fs.tail (writePaper T base p (fs.headD Fault.ok) s)

/-- Lines 227-230: on page 1 only, `total_results = result.get("total", 0)`. -/
def pageTotal (r : ApiResult) (s : WState) : WState :=
  if s.pageNum = 1 then { s with totalResults := r.total.getD 0 } else s

/-- The `while True` loop of `search_papers_with_split` (lines 215-271).
Each iteration records the issued request's `token` parameter, then
dispatches on the `_make_request` result: a raised exception propagates
(line 80 through the loop); a `None` or empty-dict result breaks (line
223-224); otherwise the page's records are streamed (exceptions propagate),
and the loop continues iff `result.get("token")` is truthy (lines 266-271),
carrying it as the next request's `token` parameter (lines 217-218).
An exhausted script is read as the fetcher returning `None`. -/
def runLoop (T : Nat) (base : String) : List FetchStep → WState → WState
  | [], s => s
  | step :: rest, s =>
    let s1 := { s with requestTokens := s.requestTokens ++ [s.paramsToken] }
    match step.result with
    | .raised => { s1 with raised := true }
    | .exhausted => s1
    | .page r =>
      if r.isEmptyObj then s1
      else
        let s2 := writePapers T base (r.data.getD []) step.faults (pageTotal r s1)
        if s2.raised then s2
        else
          match r.token with
          | Option.none => s2
          | some t =>
            if t = "" then s2
            else runLoop T base rest
              { s2 with paramsToken := some t, pageNum := s2.pageNum + 1 }

/-- Lines 186-213: counters zeroed, `current_file_index = 1`, the first file
`{base}.jsonl` opened and appended to `output_files`, `page = 1`. -/
def initState (base : String) : WState :=
  ⟨[⟨base ++ ".jsonl", [], false, 0⟩], 1, 0, [], 0, 1, [], Option.none, false⟩

/-- The observables of one `search_papers_with_split` run.  `files` and
`outputFiles` are in creation order (`output_files` of the code); `raised`
tells whether an exception propagated to the caller instead of a normal
return of the tuple (line 280). -/
structure RunResult where
  totalResults : Int
  fetchedCount : Nat
  citations : List Int
  outputFiles : List String
  files : List FileRec
  requestTokens : List (Option String)
  raised : Bool
deriving DecidableEq, Repr

/-- The `finally` block (lines 273-278): `if current_file: current_file.close()`. -/
def finalizeFiles (l : List FileRec) : List FileRec :=
  match l with
  | [] => []
  | cur :: rest => closeFile cur :: rest

/-- `search_papers_with_split(query, year, fields, base_filename, max_size_mb)`
run against environment `env`.  `max_size_bytes = max_size_mb * 1024 * 1024`
(line 197).  If the initial `open` raises, `current_file` is still `None`, so
the `finally` block closes nothing and the exception propagates with no file
created. -/
def searchPapersWithSplit (base : String) (maxSizeMb : Nat) (env : Env) :
    RunResult :=
  let T := maxSizeMb * 1024 * 1024
  if env.firstOpenFail then ⟨0, 0, [], [], [], [], true⟩
  else
    let s := runLoop T base env.fetches (initState base)
    let fs := finalizeFiles s.files
    ⟨s.totalResults, s.fetchedCount, s.citations, fs.reverse.map (fun f => f.name),
     fs.reverse, s.requestTokens, s.raised⟩

/-! ### Facts about the retrying fetcher -/

/-- When no attempt succeeds, the attempt loop runs through the whole outcome
list, and its result is decided by the last attempt's failure kind: a final
`RequestException` re-raises (line 80), anything else falls through to
`return None` (line 82). -/
lemma runAttempts_fst_noSuccess (δ : ℚ) :
    ∀ (l : List AttemptOutcome) (i : Nat), (∀ o ∈ l, o.isSuccess = false) →
      (runAttempts δ i l).1 =
        if l.getLast? = some AttemptOutcome.requestError
        then FetchResult.raised else FetchResult.exhausted := by
  intro l
  induction l with
  | nil => intro i _; simp [runAttempts]
  | cons o rest ih =>
    intro i h
    have hrest : ∀ o ∈ rest, o.isSuccess = false :=
      fun o ho => h o (List.mem_cons_of_mem _ ho)
    match o with
    | .success b =>
      have hs := h _ (List.mem_cons_self ..)
      simp [AttemptOutcome.isSuccess] at hs
    | .rateLimited =>
      cases rest with
      | nil => simp [runAttempts]
      | cons b m =>
        rw [List.getLast?_cons_cons]
        simpa [runAttempts] using ih (i + 1) hrest
    | .requestError =>
      cases rest with
      | nil => simp [runAttempts]
      | cons b m =>
        rw [List.getLast?_cons_cons]
        simpa [runAttempts] using ih (i + 1) hrest

/-- One-step unfolding of the attempt loop at a `RequestException`. -/
lemma runAttempts_cons_requestError (δ : ℚ) (i : Nat)
    (rest : List AttemptOutcome) :
    runAttempts δ i (AttemptOutcome.requestError :: rest) =
      if rest.isEmpty then (FetchResult.raised, [], 1)
      else ((runAttempts δ (i + 1) rest).1,
            (2 : ℚ) ^ i * δ :: (runAttempts δ (i + 1) rest).2.1,
            (runAttempts δ (i + 1) rest).2.2 + 1) := rfl

/-- One-step unfolding of the attempt loop at an HTTP 429. -/
lemma runAttempts_cons_rateLimited (δ : ℚ) (i : Nat)
    (rest : List AttemptOutcome) :
    runAttempts δ i (AttemptOutcome.rateLimited :: rest) =
      ((runAttempts δ (i + 1) rest).1,
       (2 : ℚ) ^ i * δ :: (runAttempts δ (i + 1) rest).2.1,
       (runAttempts δ (i + 1) rest).2.2 + 1) := rfl

/-- The shifted sleep list of one more leading backoff sleep. -/
lemma backoff_sleeps_shift (δ : ℚ) (i k : Nat) :
    (2 : ℚ) ^ i * δ :: (List.range k).map (fun j => (2 : ℚ) ^ (i + 1 + j) * δ) =
      (List.range (k + 1)).map (fun j => (2 : ℚ) ^ (i + j) * δ) := by
  rw [List.range_succ_eq_map, List.map_cons, List.map_map]
  refine List.cons_eq_cons.mpr ⟨by norm_num, ?_⟩
  refine List.map_congr_left ?_
  intro j _
  have hj : i + 1 + j = i + Nat.succ j := by omega
  simp [Function.comp, hj]

/-- Backoff sleeps of an all-`RequestException` run: every non-final attempt
sleeps `2^attempt * δ`, the final attempt re-raises. -/
lemma runAttempts_replicate_requestError (δ : ℚ) :
    ∀ (k i : Nat),
      runAttempts δ i (List.replicate (k + 1) AttemptOutcome.requestError) =
        (FetchResult.raised,
         (List.range k).map (fun j => (2 : ℚ) ^ (i + j) * δ), k + 1) := by
  intro k
  induction k with
  | zero => intro i; simp [runAttempts]
  | succ k ih =>
    intro i
    rw [List.replicate_succ, runAttempts_cons_requestError]
    have hne : (List.replicate (k + 1) AttemptOutcome.requestError).isEmpty = false := by
      simp
    rw [hne, ih (i + 1)]
    simp only [Bool.false_eq_true, if_false, Prod.mk.injEq, true_and, and_true]
    exact backoff_sleeps_shift δ i k

/-- Attempt loop behaviour on a prefix of `k` HTTP 429 responses followed by
a success: each 429 sleeps `2^attempt * δ` and consumes one attempt, then the
successful response is decoded and returned. -/
lemma runAttempts_rateLimited_prefix (δ : ℚ) (b : ApiResult)
    (rest : List AttemptOutcome) :
    ∀ (k i : Nat),
      runAttempts δ i
          (List.replicate k AttemptOutcome.rateLimited ++
            AttemptOutcome.success b :: rest) =
        (FetchResult.page b,
         (List.range k).map (fun j => (2 : ℚ) ^ (i + j) * δ), k + 1) := by
  intro k
  induction k with
  | zero => intro i; simp [runAttempts]
  | succ k ih =>
    intro i
    rw [List.replicate_succ, List.cons_append, runAttempts_cons_rateLimited,
      ih (i + 1)]
    simp only [Prod.mk.injEq, true_and, and_true]
    exact backoff_sleeps_shift δ i k

/-- C1, counterexample: with `max_retries = 5` and every attempt failing with
a `RequestException` (connection error, timeout, or non-2xx response), the
exhausted `_make_request` call raises (line 80) instead of returning `None`,
refuting "returns no page regardless of the kind of failure". -/
theorem make_request_exhaustion_counterexample :
    (makeRequest (11/10) (List.replicate 5 AttemptOutcome.requestError)).1 =
        FetchResult.raised ∧
    FetchResult.raised ≠ FetchResult.exhausted := by
  constructor
  · decide
  · decide

/-- C1 (amended): if all `max_retries` attempts are exhausted without a
successful response, `_make_request` returns `None` without raising exactly
when the final attempt's failure was an HTTP 429; when the final attempt
failed with a network-level `RequestException`, the exception propagates to
the caller instead. -/
theorem make_request_retry_exhaustion (δ : ℚ) (outcomes : List AttemptOutcome)
    (h : ∀ o ∈ outcomes, o.isSuccess = false) :
    ((makeRequest δ outcomes).1 = FetchResult.exhausted ↔
      outcomes.getLast? ≠ some AttemptOutcome.requestError) ∧
    ((makeRequest δ outcomes).1 = FetchResult.raised ↔
      outcomes.getLast? = some AttemptOutcome.requestError) := by
  have hfst := runAttempts_fst_noSuccess δ outcomes 0 h
  rw [makeRequest] at *
  by_cases hc : outcomes.getLast? = some AttemptOutcome.requestError <;>
    simp [hfst, hc]

theorem make_request_retry_exhaustion_witness :
    (∀ o ∈ [AttemptOutcome.rateLimited, AttemptOutcome.rateLimited],
        o.isSuccess = false) ∧
    ((makeRequest 1 [AttemptOutcome.rateLimited, AttemptOutcome.rateLimited]).1 =
          FetchResult.exhausted ↔
      [AttemptOutcome.rateLimited, AttemptOutcome.rateLimited].getLast? ≠
          some AttemptOutcome.requestError) :=
  ⟨by decide, (make_request_retry_exhaustion 1 _ (by decide)).1⟩

/-- C5: a `RequestException` on a non-final attempt sleeps `2^attempt * δ`
and retries (consuming one attempt); on the final attempt it re-raises.  In
particular an all-failing run of `k + 1` attempts raises after backoff sleeps
`2^0 δ, …, 2^(k-1) δ`. -/
theorem request_error_backoff (δ : ℚ) (i : Nat) (rest : List AttemptOutcome) :
    (rest ≠ [] →
      runAttempts δ i (AttemptOutcome.requestError :: rest) =
        ((runAttempts δ (i + 1) rest).1,
         (2 : ℚ) ^ i * δ :: (runAttempts δ (i + 1) rest).2.1,
         (runAttempts δ (i + 1) rest).2.2 + 1)) ∧
    runAttempts δ i [AttemptOutcome.requestError] = (FetchResult.raised, [], 1) ∧
    ∀ k, makeRequest δ (List.replicate (k + 1) AttemptOutcome.requestError) =
      (FetchResult.raised, (List.range k).map (fun j => (2 : ℚ) ^ j * δ), k + 1) := by
  refine ⟨?_, by simp [runAttempts], ?_⟩
  · intro hrest
    have hne : rest.isEmpty = false := by
      cases rest with
      | nil => exact absurd rfl hrest
      | cons b m => simp
    simp [runAttempts, hne]
  · intro k
    rw [makeRequest, runAttempts_replicate_requestError δ k 0]
    simp

theorem request_error_backoff_witness :
    runAttempts 1 0 [AttemptOutcome.requestError, AttemptOutcome.rateLimited] =
      (FetchResult.exhausted, [(2 : ℚ) ^ 0 * 1, (2 : ℚ) ^ 1 * 1], 2) := by
  have h := (request_error_backoff 1 0 [AttemptOutcome.rateLimited]).1 (by decide)
  rw [h, runAttempts_cons_rateLimited]
  norm_num [runAttempts]

/-- C6: an HTTP 429 on attempt `j` (0-indexed) sleeps exactly `2^j * δ` and
consumes one of the `max_retries` attempts; a server answering 429 on the
first `k` attempts and succeeding afterwards yields `k + 1` attempts, backoff
sleeps `2^0 δ, …, 2^(k-1) δ`, and the decoded successful page; for `0 < δ`
those sleeps are strictly increasing. -/
theorem rate_limited_backoff (δ : ℚ) (b : ApiResult)
    (rest : List AttemptOutcome) (k : Nat) :
    makeRequest δ (List.replicate k AttemptOutcome.rateLimited ++
        AttemptOutcome.success b :: rest) =
      (FetchResult.page b, (List.range k).map (fun j => (2 : ℚ) ^ j * δ), k + 1) ∧
    (0 < δ → StrictMono (fun j : ℕ => (2 : ℚ) ^ j * δ)) := by
  constructor
  · rw [makeRequest, runAttempts_rateLimited_prefix δ b rest k 0]
    simp
  · intro hδ a a' haa
    exact mul_lt_mul_of_pos_right (pow_lt_pow_right₀ (by norm_num) haa) hδ

theorem rate_limited_backoff_witness :
    makeRequest (11/10) (List.replicate 2 AttemptOutcome.rateLimited ++
        AttemptOutcome.success ⟨some 5, some [], Option.none, 0⟩ :: []) =
      (FetchResult.page ⟨some 5, some [], Option.none, 0⟩,
        [(2 : ℚ) ^ 0 * (11/10), (2 : ℚ) ^ 1 * (11/10)], 3) ∧
    (2 : ℚ) ^ 0 * (11/10) < (2 : ℚ) ^ 1 * (11/10) := by
  have h := rate_limited_backoff (11/10) ⟨some 5, some [], Option.none, 0⟩ [] 2
  refine ⟨?_, ?_⟩
  · rw [h.1]; simp [List.range_succ]
  · exact h.2 (by norm_num) (show (0 : ℕ) < 1 by norm_num)

/-! ### Facts about the rate limiter -/

/-- Starting from a clock whose `last_request_time` equals the current time
(which holds right after any `_wait_for_rate_limit` call returns), all
request issue times are spaced at least `δ` apart, and the first one is at
least `δ` after the start. -/
lemma requestTimes_chain (δ : ℚ) (hδ : 0 ≤ δ) :
    ∀ (script : List (ℚ × ℚ)), (∀ x ∈ script, 0 ≤ x.1 ∧ 0 ≤ x.2) →
    ∀ (t : ℚ),
      List.Chain' (fun a b => a + δ ≤ b) (requestTimes δ script ⟨t, t⟩) ∧
      ∀ u ∈ (requestTimes δ script ⟨t, t⟩).head?, t + δ ≤ u := by
  intro script
  induction script with
  | nil => intro _ t; simp [requestTimes]
  | cons x rest ih =>
    intro h t
    obtain ⟨g, d⟩ := x
    have hx := h ⟨g, d⟩ (List.mem_cons_self ..)
    have hrest : ∀ y ∈ rest, 0 ≤ y.1 ∧ 0 ≤ y.2 :=
      fun y hy => h y (List.mem_cons_of_mem _ hy)
    -- the next recorded issue time
    set u := (waitForRateLimit δ d ⟨t + g, t⟩).lastRequestTime with hu
    have hwait : waitForRateLimit δ d ⟨t + g, t⟩ = ⟨u, u⟩ := by
      rw [hu]; rfl
    have hstep : t + δ ≤ u := by
      rw [hu, waitForRateLimit]
      simp only
      split
      · linarith [hx.2]
      · have : ¬ (t + g - t < δ) := by assumption
        linarith [hx.2, not_lt.mp this]
    have hrec := ih hrest u
    constructor
    · show List.Chain' _ (u :: requestTimes δ rest (waitForRateLimit δ d ⟨t + g, t⟩))
      rw [hwait, List.chain'_cons']
      exact ⟨hrec.2, hrec.1⟩
    · intro v hv
      simp only [requestTimes, List.head?_cons, Option.mem_def, Option.some.injEq] at hv
      rw [← hv]
      exact hstep

/-- A `δ`-spaced chain spans at least `(length - 1) * δ`. -/
lemma chain_span (δ : ℚ) :
    ∀ (l : List ℚ), List.Chain' (fun a b => a + δ ≤ b) l →
      ((l.length - 1 : ℕ) : ℚ) * δ ≤
        (l.getLast?.getD 0) - (l.headD 0) := by
  intro l
  induction l with
  | nil => simp
  | cons a l ih =>
    intro h
    cases l with
    | nil => simp
    | cons b m =>
      rw [List.chain'_cons] at h
      have hb := ih h.2
      have hab : a + δ ≤ b := h.1
      rw [List.getLast?_cons_cons]
      simp only [List.length_cons, List.headD_cons, Nat.add_sub_cancel] at *
      have hlast : ∃ w, (b :: m).getLast? = some w := by
        cases hgl : (b :: m).getLast? with
        | none => exact absurd hgl (by simp)
        | some w => exact ⟨w, rfl⟩
      obtain ⟨w, hw⟩ := hlast
      rw [hw] at hb ⊢
      simp only [Option.getD_some] at hb ⊢
      push_cast
      push_cast at hb
      nlinarith [hb, hab]

/-- C8: for every run of `N` request attempts (retries included), with
nonnegative inter-request activity times and sleep drifts, consecutive
request issue times are at least `rate_limit_delay` apart, hence the time
between the first and the last request issue is at least
`(N - 1) * rate_limit_delay`.  This holds because `_wait_for_rate_limit`
runs before every attempt (line 59) and blocks until `rate_limit_delay` has
elapsed since the recorded start of the previous request. -/
theorem rate_limit_lower_bound (δ : ℚ) (hδ : 0 ≤ δ) (script : List (ℚ × ℚ))
    (hs : ∀ x ∈ script, 0 ≤ x.1 ∧ 0 ≤ x.2) (c : Clock) :
    List.Chain' (fun a b => a + δ ≤ b) (requestTimes δ script c) ∧
    (((requestTimes δ script c).length - 1 : ℕ) : ℚ) * δ ≤
      ((requestTimes δ script c).getLast?.getD 0) -
        ((requestTimes δ script c).headD 0) := by
  have hchain : List.Chain' (fun a b => a + δ ≤ b) (requestTimes δ script c) := by
    cases script with
    | nil => simp [requestTimes]
    | cons x rest =>
      obtain ⟨g, d⟩ := x
      have hrest : ∀ y ∈ rest, 0 ≤ y.1 ∧ 0 ≤ y.2 :=
        fun y hy => hs y (List.mem_cons_of_mem _ hy)
      set u := (waitForRateLimit δ d ⟨c.now + g, c.lastRequestTime⟩).lastRequestTime
        with hu
      have hwait : waitForRateLimit δ d ⟨c.now + g, c.lastRequestTime⟩ = ⟨u, u⟩ := by
        rw [hu]; rfl
      show List.Chain' _ (u :: requestTimes δ rest _)
      rw [hwait, List.chain'_cons']
      have hrec := requestTimes_chain δ hδ rest hrest u
      exact ⟨hrec.2, hrec.1⟩
  exact ⟨hchain, chain_span δ _ hchain⟩

theorem rate_limit_lower_bound_witness :
    (0 : ℚ) ≤ 1 ∧
    (∀ x ∈ [((0 : ℚ), (0 : ℚ)), ((0 : ℚ), (0 : ℚ))], 0 ≤ x.1 ∧ 0 ≤ x.2) ∧
    (((requestTimes 1 [((0 : ℚ), (0 : ℚ)), ((0 : ℚ), (0 : ℚ))] ⟨0, 0⟩).length - 1 : ℕ) : ℚ) * 1 ≤
      ((requestTimes 1 [((0 : ℚ), (0 : ℚ)), ((0 : ℚ), (0 : ℚ))] ⟨0, 0⟩).getLast?.getD 0) -
        ((requestTimes 1 [((0 : ℚ), (0 : ℚ)), ((0 : ℚ), (0 : ℚ))] ⟨0, 0⟩).headD 0) :=
  ⟨by norm_num, by decide,
    (rate_limit_lower_bound 1 (by norm_num) _ (by decide) ⟨0, 0⟩).2⟩

/-! ### Invariants of the splitting writer -/

lemma closeFile_name (f : FileRec) : (closeFile f).name = f.name := by
  unfold closeFile; split <;> rfl

lemma closeFile_lines (f : FileRec) : (closeFile f).lines = f.lines := by
  unfold closeFile; split <;> rfl

lemma closeFile_isClosed (f : FileRec) : (closeFile f).isClosed = true := by
  unfold closeFile; split
  · assumption
  · rfl

lemma closeFile_count (f : FileRec)
    (h : f.closeCount = if f.isClosed then 1 else 0) :
    (closeFile f).closeCount = 1 := by
  unfold closeFile; split
  · rw [h]; simp_all
  · simp_all

/-- Size shape of a non-first file while it is the current file: just opened,
holding only its rollover-trigger record, or within the threshold. -/
def PBound (T : Nat) (f : FileRec) : Prop :=
  f.lines = [] ∨ f.lines.length = 1 ∨ f.lines.sum ≤ T

lemma pbound_closeFile (T : Nat) (f : FileRec) (h : PBound T f) :
    PBound T (closeFile f) := by
  unfold PBound at *
  rw [closeFile_lines]
  exact h

/-- The consequence of `PBound` used by C3: a file in that shape never holds
more than `T` plus its own first line, and exceeds `T` only as a singleton. -/
lemma pbound_conseq (T : Nat) (f : FileRec) (h : PBound T f) :
    f.lines.sum ≤ T + f.lines.headD 0 ∧
    (T < f.lines.sum → f.lines.length = 1) := by
  rcases h with h | h | h
  · rw [h]; simp
  · obtain ⟨a, ha⟩ := List.length_eq_one.mp h
    rw [ha]; simp
  · exact ⟨le_trans h (Nat.le_add_right _ _), fun hlt => absurd h (by omega)⟩

/-- The file names in creation order, newest first: `namesDown base n` lists
the names of files `n, n-1, …, 1`. -/
def namesDown (base : String) : Nat → List String
  | 0 => []
  | k + 1 => fileName base (k + 1) :: namesDown base k

/-- The loop invariant of `search_papers_with_split`, over the state with
`files` newest-first (head = `current_file`, last = first file created). -/
structure Inv (T : Nat) (base : String) (s : WState) : Prop where
  ne : s.files ≠ []
  fetchedPos : 2 ≤ s.files.length → 1 ≤ s.fetchedCount
  closeCounts : ∀ f ∈ s.files, f.closeCount = if f.isClosed then 1 else 0
  tailClosed : ∀ f ∈ s.files.tail, f.isClosed = true
  sizeBound : ∀ f ∈ s.files.dropLast, PBound T f
  countEq : (s.files.map (fun f => f.lines.length)).sum = s.fetchedCount
  idx : s.fileIndex = s.files.length
  fnames : s.files.map (fun f => f.name) = namesDown base s.files.length
  midNonempty : s.raised = false → ∀ f ∈ s.files.dropLast, f.lines ≠ []
  firstNonempty : s.raised = false → 0 < s.fetchedCount →
    ∀ f, s.files.getLast? = some f → f.lines ≠ []

/-- `Inv` only reads `files`, `fetchedCount`, `fileIndex` and `raised`. -/
lemma inv_transfer (T : Nat) (base : String) (s s' : WState) (h : Inv T base s)
    (h1 : s'.files = s.files) (h2 : s'.fetchedCount = s.fetchedCount)
    (h3 : s'.fileIndex = s.fileIndex)
    (h4 : s'.raised = false → s.raised = false) : Inv T base s' := by
  refine ⟨?_, ?_, ?_, ?_, ?_, ?_, ?_, ?_, ?_, ?_⟩
  · rw [h1]; exact h.ne
  · rw [h1, h2]; exact h.fetchedPos
  · rw [h1]; exact h.closeCounts
  · rw [h1]; exact h.tailClosed
  · rw [h1]; exact h.sizeBound
  · rw [h1, h2]; exact h.countEq
  · rw [h3, h1]; exact h.idx
  · rw [h1]; exact h.fnames
  · intro hr; rw [h1]; exact h.midNonempty (h4 hr)
  · intro hr hf; rw [h1, h2] at *; exact h.firstNonempty (h4 hr) hf

lemma writePaper_raised (T : Nat) (base : String) (p : Paper) (fault : Fault)
    (s : WState) (h : s.raised = true) : writePaper T base p fault s = s := by
  unfold writePaper; rw [h]; rfl

/-- One-step unfolding of the record-write body on a live state. -/
lemma writePaper_eq (T : Nat) (base : String) (p : Paper) (fault : Fault)
    (s : WState) (cur : FileRec) (rest : List FileRec)
    (hr : s.raised = false) (hfs : s.files = cur :: rest) :
    writePaper T base p fault s =
      if T < cur.size + p.lineSize ∧ 0 < s.fetchedCount then
        match fault with
        | .openFail => { s with files := closeFile cur :: rest, raised := true }
        | .writeFail =>
          { s with
              files := ⟨base ++ "_part" ++ toString (s.fileIndex + 1) ++ ".jsonl",
                        [], false, 0⟩ :: closeFile cur :: rest,
              fileIndex := s.fileIndex + 1, raised := true }
        | .ok =>
          { s with
              files := ⟨base ++ "_part" ++ toString (s.fileIndex + 1) ++ ".jsonl",
                        [p.lineSize], false, 0⟩ :: closeFile cur :: rest,
              fileIndex := s.fileIndex + 1,
              fetchedCount := s.fetchedCount + 1,
              citations := appendCitation p s.citations }
      else
        match fault with
        | .writeFail => { s with raised := true }
        | _ =>
          { s with
              files := { cur with lines := cur.lines ++ [p.lineSize] } :: rest,
              fetchedCount := s.fetchedCount + 1,
              citations := appendCitation p s.citations } := by
  unfold writePaper
  rw [hr, hfs]
  rfl

/-- Preservation of the loop invariant by one record write (any fault). -/
theorem inv_writePaper (T : Nat) (base : String) (p : Paper) (fault : Fault)
    (s : WState) (h : Inv T base s) : Inv T base (writePaper T base p fault s) := by
  cases hr : s.raised with
  | true => rw [writePaper_raised T base p fault s hr]; exact h
  | false =>
  cases hfs : s.files with
  | nil => exact absurd hfs h.ne
  | cons cur rest =>
  have hmemcur : cur ∈ s.files := by rw [hfs]; exact List.mem_cons_self ..
  have hcc := h.closeCounts
  have htc := h.tailClosed
  have hsb := h.sizeBound
  have hce := h.countEq
  have hidx := h.idx
  have hnm := h.fnames
  have hmid := h.midNonempty hr
  have hfst := h.firstNonempty hr
  have hfp := h.fetchedPos
  rw [hfs] at hcc htc hsb hce hidx hnm hmid hfp
  simp only [List.tail_cons] at htc
  simp only [List.map_cons, List.sum_cons, List.length_cons] at hce hidx hnm
  rw [writePaper_eq T base p fault s cur rest hr hfs]
  by_cases hc : T < cur.size + p.lineSize ∧ 0 < s.fetchedCount
  · rw [if_pos hc]
    have hclosedCount : (closeFile cur).closeCount = 1 :=
      closeFile_count cur (hcc cur (List.mem_cons_self ..))
    have hclosed := closeFile_isClosed cur
    -- facts about the closed current file inside `dropLast`
    have htailCC : ∀ f ∈ closeFile cur :: rest,
        f.closeCount = if f.isClosed then 1 else 0 := by
      intro f hf
      rcases List.mem_cons.mp hf with rfl | hf
      · rw [hclosedCount, hclosed]; rfl
      · exact hcc f (List.mem_cons_of_mem _ hf)
    have htailClosed : ∀ f ∈ closeFile cur :: rest, f.isClosed = true := by
      intro f hf
      rcases List.mem_cons.mp hf with rfl | hf
      · exact hclosed
      · exact htc f hf
    have hdropBound : ∀ f ∈ (closeFile cur :: rest).dropLast, PBound T f := by
      cases rest with
      | nil => simp
      | cons r rs =>
        rw [List.dropLast_cons₂]
        intro f hf
        rcases List.mem_cons.mp hf with rfl | hf
        · exact pbound_closeFile T cur
            (hsb cur (by rw [List.dropLast_cons₂]; exact List.mem_cons_self ..))
        · exact hsb f (by rw [List.dropLast_cons₂]; exact List.mem_cons_of_mem _ hf)
    have hdropNE : ∀ f ∈ (closeFile cur :: rest).dropLast, f.lines ≠ [] := by
      cases rest with
      | nil => simp
      | cons r rs =>
        rw [List.dropLast_cons₂]
        intro f hf
        rcases List.mem_cons.mp hf with rfl | hf
        · rw [closeFile_lines]
          exact hmid cur (by rw [List.dropLast_cons₂]; exact List.mem_cons_self ..)
        · exact hmid f (by rw [List.dropLast_cons₂]; exact List.mem_cons_of_mem _ hf)
    have hlastNE : ∀ f, (closeFile cur :: rest).getLast? = some f → f.lines ≠ [] := by
      intro f hgl
      cases rest with
      | nil =>
        simp only [List.getLast?_singleton, Option.some.injEq] at hgl
        rw [← hgl, closeFile_lines]
        exact hfst hc.2 cur (by rw [hfs]; rfl)
      | cons r rs =>
        rw [List.getLast?_cons_cons] at hgl
        exact hfst hc.2 f (by rw [hfs, List.getLast?_cons_cons]; exact hgl)
    have hnewName :
        base ++ "_part" ++ toString (s.fileIndex + 1) ++ ".jsonl" =
          fileName base (rest.length + 1 + 1) := by
      rw [fileName, if_neg (by omega), hidx]
    cases fault with
    | openFail =>
      show Inv T base { s with files := closeFile cur :: rest, raised := true }
      refine ⟨by simp, ?_, htailCC, ?_, hdropBound, ?_, ?_, ?_, ?_, ?_⟩
      · intro hlen
        exact hfp (by simpa using hlen)
      · simpa using fun f hf => htc f hf
      · simpa [closeFile_lines] using hce
      · simpa using hidx
      · simpa [closeFile_name] using hnm
      · intro hraised; simp at hraised
      · intro hraised; simp at hraised
    | writeFail =>
      show Inv T base
        { s with
            files := ⟨base ++ "_part" ++ toString (s.fileIndex + 1) ++ ".jsonl",
                      [], false, 0⟩ :: closeFile cur :: rest,
            fileIndex := s.fileIndex + 1, raised := true }
      refine ⟨by simp, fun _ => hc.2, ?_, ?_, ?_, ?_, ?_, ?_, ?_, ?_⟩
      · intro f hf
        rcases List.mem_cons.mp hf with rfl | hf
        · rfl
        · exact htailCC f hf
      · simpa using htailClosed
      · intro f hf
        rw [List.dropLast_cons₂] at hf
        rcases List.mem_cons.mp hf with rfl | hf
        · exact Or.inl rfl
        · exact hdropBound f hf
      · simpa [closeFile_lines] using hce
      · simpa using hidx
      · simp only [List.map_cons, List.length_cons, closeFile_name]
        rw [hnewName, namesDown]
        simpa using hnm
      · intro hraised; simp at hraised
      · intro hraised; simp at hraised
    | ok =>
      show Inv T base
        { s with
            files := ⟨base ++ "_part" ++ toString (s.fileIndex + 1) ++ ".jsonl",
                      [p.lineSize], false, 0⟩ :: closeFile cur :: rest,
            fileIndex := s.fileIndex + 1,
            fetchedCount := s.fetchedCount + 1,
            citations := appendCitation p s.citations }
      refine ⟨by simp, fun _ => Nat.succ_le_succ (Nat.zero_le _), ?_, ?_, ?_, ?_, ?_, ?_, ?_, ?_⟩
      · intro f hf
        rcases List.mem_cons.mp hf with rfl | hf
        · rfl
        · exact htailCC f hf
      · simpa using htailClosed
      · intro f hf
        rw [List.dropLast_cons₂] at hf
        rcases List.mem_cons.mp hf with rfl | hf
        · exact Or.inr (Or.inl rfl)
        · exact hdropBound f hf
      · simp only [List.map_cons, List.sum_cons, closeFile_lines,
          List.length_singleton]
        omega
      · simpa using hidx
      · simp only [List.map_cons, List.length_cons, closeFile_name]
        rw [hnewName, namesDown]
        simpa using hnm
      · intro _ f hf
        rw [List.dropLast_cons₂] at hf
        rcases List.mem_cons.mp hf with rfl | hf
        · simp
        · exact hdropNE f hf
      · intro _ _ f hgl
        rw [List.getLast?_cons_cons] at hgl
        exact hlastNE f hgl
  · rw [if_neg hc]
    cases fault with
    | writeFail =>
      refine inv_transfer T base s _ h rfl rfl rfl ?_
      intro hraised; simp at hraised
    | ok =>
      show Inv T base
        { s with
            files := { cur with lines := cur.lines ++ [p.lineSize] } :: rest,
            fetchedCount := s.fetchedCount + 1,
            citations := appendCitation p s.citations }
      refine ⟨by simp, fun _ => Nat.succ_le_succ (Nat.zero_le _), ?_, ?_, ?_, ?_, ?_, ?_, ?_, ?_⟩
      · intro f hf
        rcases List.mem_cons.mp hf with rfl | hf
        · exact hcc cur (List.mem_cons_self ..)
        · exact hcc f (List.mem_cons_of_mem _ hf)
      · simpa using htc
      · cases rest with
        | nil => simp
        | cons r rs =>
          rw [List.dropLast_cons₂]
          intro f hf
          rcases List.mem_cons.mp hf with rfl | hf
          · have hfet : 0 < s.fetchedCount := hfp (by simp)
            have hsz : cur.size + p.lineSize ≤ T := by
              rcases not_and_or.mp hc with hA | hB
              · omega
              · exact absurd hfet hB
            refine Or.inr (Or.inr ?_)
            simpa [FileRec.size] using hsz
          · exact hsb f (by rw [List.dropLast_cons₂]; exact List.mem_cons_of_mem _ hf)
      · simp only [List.map_cons, List.sum_cons, List.length_append,
          List.length_singleton]
        omega
      · simpa using hidx
      · simpa using hnm
      · intro _ f hf
        cases rest with
        | nil => simp at hf
        | cons r rs =>
          rw [List.dropLast_cons₂] at hf
          rcases List.mem_cons.mp hf with rfl | hf
          · simp
          · exact hmid f (by rw [List.dropLast_cons₂]; exact List.mem_cons_of_mem _ hf)
      · intro _ _ f hgl
        cases rest with
        | nil =>
          simp only [List.getLast?_singleton, Option.some.injEq] at hgl
          rw [← hgl]; simp
        | cons r rs =>
          rw [List.getLast?_cons_cons] at hgl
          have hfet : 0 < s.fetchedCount := hfp (by simp)
          exact hfst hfet f (by rw [hfs, List.getLast?_cons_cons]; exact hgl)
    | openFail =>
      show Inv T base
        { s with
            files := { cur with lines := cur.lines ++ [p.lineSize] } :: rest,
            fetchedCount := s.fetchedCount + 1,
            citations := appendCitation p s.citations }
      refine ⟨by simp, fun _ => Nat.succ_le_succ (Nat.zero_le _), ?_, ?_, ?_, ?_, ?_, ?_, ?_, ?_⟩
      · intro f hf
        rcases List.mem_cons.mp hf with rfl | hf
        · exact hcc cur (List.mem_cons_self ..)
        · exact hcc f (List.mem_cons_of_mem _ hf)
      · simpa using htc
      · cases rest with
        | nil => simp
        | cons r rs =>
          rw [List.dropLast_cons₂]
          intro f hf
          rcases List.mem_cons.mp hf with rfl | hf
          · have hfet : 0 < s.fetchedCount := hfp (by simp)
            have hsz : cur.size + p.lineSize ≤ T := by
              rcases not_and_or.mp hc with hA | hB
              · omega
              · exact absurd hfet hB
            refine Or.inr (Or.inr ?_)
            simpa [FileRec.size] using hsz
          · exact hsb f (by rw [List.dropLast_cons₂]; exact List.mem_cons_of_mem _ hf)
      · simp only [List.map_cons, List.sum_cons, List.length_append,
          List.length_singleton]
        omega
      · simpa using hidx
      · simpa using hnm
      · intro _ f hf
        cases rest with
        | nil => simp at hf
        | cons r rs =>
          rw [List.dropLast_cons₂] at hf
          rcases List.mem_cons.mp hf with rfl | hf
          · simp
          · exact hmid f (by rw [List.dropLast_cons₂]; exact List.mem_cons_of_mem _ hf)
      · intro _ _ f hgl
        cases rest with
        | nil =>
          simp only [List.getLast?_singleton, Option.some.injEq] at hgl
          rw [← hgl]; simp
        | cons r rs =>
          rw [List.getLast?_cons_cons] at hgl
          have hfet : 0 < s.fetchedCount := hfp (by simp)
          exact hfst hfet f (by rw [hfs, List.getLast?_cons_cons]; exact hgl)

lemma inv_writePapers (T : Nat) (base : String) (papers : List Paper) :
    ∀ (faults : List Fault) (s : WState), Inv T base s →
      Inv T base (writePapers T base papers faults s) := by
  induction papers with
  | nil => exact fun _ _ h => h
  | cons p ps ih =>
    intro faults s h
    show Inv T base
      (writePapers T base ps faults.tail
        (writePaper T base p (faults.headD Fault.ok) s))
    exact ih _ _ (inv_writePaper _ _ _ _ _ h)

lemma inv_pageTotal (T : Nat) (base : String) (r : ApiResult) (s : WState)
    (h : Inv T base s) : Inv T base (pageTotal r s) := by
  unfold pageTotal
  split
  · exact inv_transfer T base s _ h rfl rfl rfl (fun hh => hh)
  · exact h

/-- Record updates performed by `pageTotal` leave the loop observables alone. -/
lemma pageTotal_proj (r : ApiResult) (s : WState) :
    (pageTotal r s).files = s.files ∧
    (pageTotal r s).fetchedCount = s.fetchedCount ∧
    (pageTotal r s).requestTokens = s.requestTokens ∧
    (pageTotal r s).raised = s.raised := by
  unfold pageTotal; split <;> exact ⟨rfl, rfl, rfl, rfl⟩

/-- One-step unfolding of the fetch loop. -/
lemma runLoop_cons (T : Nat) (base : String) (step : FetchStep)
    (rest : List FetchStep) (s : WState) :
    runLoop T base (step :: rest) s =
      match step.result with
      | .raised =>
        { s with requestTokens := s.requestTokens ++ [s.paramsToken], raised := true }
      | .exhausted => { s with requestTokens := s.requestTokens ++ [s.paramsToken] }
      | .page r =>
        if r.isEmptyObj then
          { s with requestTokens := s.requestTokens ++ [s.paramsToken] }
        else
          let s2 := writePapers T base (r.data.getD []) step.faults
            (pageTotal r { s with requestTokens := s.requestTokens ++ [s.paramsToken] })
          if s2.raised then s2
          else match r.token with
            | Option.none => s2
            | some t =>
              if t = "" then s2
              else runLoop T base rest
                { s2 with paramsToken := some t, pageNum := s2.pageNum + 1 } := rfl

/-- The processing of one non-empty page body before the cursor is read. -/
def pageStep (T : Nat) (base : String) (r : ApiResult) (faults : List Fault)
    (s : WState) : WState :=
  writePapers T base (r.data.getD []) faults
    (pageTotal r { s with requestTokens := s.requestTokens ++ [s.paramsToken] })

lemma runLoop_cons_raised (T : Nat) (base : String) (faults : List Fault)
    (rest : List FetchStep) (s : WState) :
    runLoop T base (⟨FetchResult.raised, faults⟩ :: rest) s =
      { s with requestTokens := s.requestTokens ++ [s.paramsToken],
               raised := true } := rfl

lemma runLoop_cons_exhausted (T : Nat) (base : String) (faults : List Fault)
    (rest : List FetchStep) (s : WState) :
    runLoop T base (⟨FetchResult.exhausted, faults⟩ :: rest) s =
      { s with requestTokens := s.requestTokens ++ [s.paramsToken] } := rfl

lemma runLoop_cons_page_empty (T : Nat) (base : String) (r : ApiResult)
    (faults : List Fault) (rest : List FetchStep) (s : WState)
    (hempty : r.isEmptyObj = true) :
    runLoop T base (⟨FetchResult.page r, faults⟩ :: rest) s =
      { s with requestTokens := s.requestTokens ++ [s.paramsToken] } := by
  rw [runLoop_cons]
  simp only [hempty, if_true]

lemma runLoop_cons_page (T : Nat) (base : String) (r : ApiResult)
    (faults : List Fault) (rest : List FetchStep) (s : WState)
    (hempty : r.isEmptyObj = false) :
    runLoop T base (⟨FetchResult.page r, faults⟩ :: rest) s =
      (if (pageStep T base r faults s).raised then pageStep T base r faults s
       else match r.token with
         | Option.none => pageStep T base r faults s
         | some t =>
           if t = "" then pageStep T base r faults s
           else runLoop T base rest
             { (pageStep T base r faults s) with
                 paramsToken := some t,
                 pageNum := (pageStep T base r faults s).pageNum + 1 }) := by
  rw [runLoop_cons]
  simp only [hempty, Bool.false_eq_true, if_false]
  rfl

/-- Preservation of the loop invariant by the whole fetch loop. -/
lemma inv_runLoop (T : Nat) (base : String) (steps : List FetchStep) :
    ∀ s, Inv T base s → Inv T base (runLoop T base steps s) := by
  induction steps with
  | nil => exact fun _ h => h
  | cons step rest ih =>
    intro s h
    obtain ⟨res, faults⟩ := step
    have h1 : Inv T base { s with requestTokens := s.requestTokens ++ [s.paramsToken] } :=
      inv_transfer T base s _ h rfl rfl rfl (fun hh => hh)
    cases res with
    | raised =>
      rw [runLoop_cons_raised]
      exact inv_transfer T base s _ h rfl rfl rfl (fun hh => absurd hh (by simp))
    | exhausted =>
      rw [runLoop_cons_exhausted]
      exact h1
    | page r =>
      cases hempty : r.isEmptyObj with
      | true => rw [runLoop_cons_page_empty T base r faults rest s hempty]; exact h1
      | false =>
        rw [runLoop_cons_page T base r faults rest s hempty]
        have h3 : Inv T base (pageStep T base r faults s) := by
          unfold pageStep
          exact inv_writePapers T base _ _ _ (inv_pageTotal T base r _ h1)
        by_cases hrs : (pageStep T base r faults s).raised = true
        · rw [if_pos hrs]; exact h3
        · rw [if_neg hrs]
          cases r.token with
          | none => exact h3
          | some t =>
            by_cases ht : t = ""
            · show Inv T base (if t = "" then _ else _)
              rw [if_pos ht]; exact h3
            · show Inv T base (if t = "" then _ else _)
              rw [if_neg ht]
              exact ih _ (inv_transfer T base (pageStep T base r faults s) _ h3
                rfl rfl rfl (fun hh => hh))

/-- The invariant holds right after the first file is opened. -/
lemma inv_init (T : Nat) (base : String) : Inv T base (initState base) := by
  refine ⟨?_, ?_, ?_, ?_, ?_, ?_, ?_, ?_, ?_, ?_⟩
  · simp [initState]
  · intro hlen; simp [initState] at hlen
  · intro f hf; simp [initState] at hf; rw [hf]; rfl
  · intro f hf; simp [initState] at hf
  · intro f hf; simp [initState] at hf
  · simp [initState]
  · simp [initState]
  · simp [initState, namesDown, fileName]
  · intro _ f hf; simp [initState] at hf
  · intro _ h0 f _; simp [initState] at h0

/-! ### Bridges from the loop's final state to the run observables -/

lemma tail_reverse (l : List α) : l.reverse.tail = l.dropLast.reverse := by
  induction l with
  | nil => rfl
  | cons a l ih =>
    cases l with
    | nil => rfl
    | cons b m =>
      rw [List.reverse_cons, List.tail_append_of_ne_nil (by simp), ih,
        List.dropLast_cons₂, List.reverse_cons]

lemma finalize_map_lines (l : List FileRec) :
    (finalizeFiles l).map (fun f => f.lines.length) =
      l.map (fun f => f.lines.length) := by
  cases l with
  | nil => rfl
  | cons cur rest => simp [finalizeFiles, closeFile_lines]

lemma finalize_map_name (l : List FileRec) :
    (finalizeFiles l).map (fun f => f.name) = l.map (fun f => f.name) := by
  cases l with
  | nil => rfl
  | cons cur rest => simp [finalizeFiles, closeFile_name]

lemma finalize_length (l : List FileRec) :
    (finalizeFiles l).length = l.length := by
  cases l with
  | nil => rfl
  | cons cur rest => simp [finalizeFiles]

/-- Projections of a run that starts by opening its first file. -/
lemma searchPapers_proj (base : String) (mb : Nat) (env : Env)
    (h : env.firstOpenFail = false) :
    (searchPapersWithSplit base mb env).files =
      (finalizeFiles (runLoop (mb * 1024 * 1024) base env.fetches
        (initState base)).files).reverse ∧
    (searchPapersWithSplit base mb env).outputFiles =
      ((finalizeFiles (runLoop (mb * 1024 * 1024) base env.fetches
        (initState base)).files).reverse).map (fun f => f.name) ∧
    (searchPapersWithSplit base mb env).fetchedCount =
      (runLoop (mb * 1024 * 1024) base env.fetches (initState base)).fetchedCount ∧
    (searchPapersWithSplit base mb env).raised =
      (runLoop (mb * 1024 * 1024) base env.fetches (initState base)).raised := by
  unfold searchPapersWithSplit
  rw [h]
  exact ⟨rfl, rfl, rfl, rfl⟩

/-- The invariant of the final loop state at the end of any live run. -/
lemma inv_final (base : String) (mb : Nat) (env : Env) :
    Inv (mb * 1024 * 1024) base
      (runLoop (mb * 1024 * 1024) base env.fetches (initState base)) :=
  inv_runLoop _ base _ _ (inv_init _ base)

lemma namesDown_reverse (base : String) :
    ∀ n, (namesDown base n).reverse =
      (List.range n).map (fun i => fileName base (i + 1)) := by
  intro n
  induction n with
  | zero => rfl
  | succ n ih =>
    rw [namesDown, List.reverse_cons, ih, List.range_succ, List.map_append]
    rfl

/-! ### Claim theorems about the splitting writer -/

lemma closed_once_of_inv (T : Nat) (base : String) (s : WState)
    (h : Inv T base s) :
    ∀ f ∈ (finalizeFiles s.files).reverse, f.isClosed = true ∧ f.closeCount = 1 := by
  intro f hf
  rw [List.mem_reverse] at hf
  cases hfs : s.files with
  | nil => rw [hfs] at hf; simp [finalizeFiles] at hf
  | cons cur rest =>
    rw [hfs] at hf
    have heq : finalizeFiles (cur :: rest) = closeFile cur :: rest := rfl
    rw [heq] at hf
    rcases List.mem_cons.mp hf with rfl | hf
    · exact ⟨closeFile_isClosed cur,
        closeFile_count cur (h.closeCounts cur (by rw [hfs]; exact List.mem_cons_self ..))⟩
    · have hcl : f.isClosed = true := h.tailClosed f (by rw [hfs]; exact hf)
      have hcnt := h.closeCounts f (by rw [hfs]; exact List.mem_cons_of_mem _ hf)
      rw [hcl] at hcnt
      exact ⟨hcl, by simpa using hcnt⟩

/-- C4: however the loop exits (cursor exhaustion, a fetch returning no page,
a fetch raising, or a file `open`/`write` raising mid-stream), every file the
run opened is closed, and has received exactly one state-changing `close()`
call, before control returns — the rollover close (line 242) and the
`finally` close (line 276), which is a no-op on an already-closed file,
together never close a file twice or leave one open. -/
theorem split_files_closed_exactly_once (base : String) (mb : Nat) (env : Env) :
    ∀ f ∈ (searchPapersWithSplit base mb env).files,
      f.isClosed = true ∧ f.closeCount = 1 := by
  intro f hf
  cases hfo : env.firstOpenFail with
  | true =>
    unfold searchPapersWithSplit at hf
    rw [hfo] at hf
    simp at hf
  | false =>
    rw [(searchPapers_proj base mb env hfo).1] at hf
    exact closed_once_of_inv _ base _ (inv_final base mb env) f hf

theorem split_files_closed_exactly_once_witness :
    FileRec.mk "out.jsonl" [3] true 1 ∈
      (searchPapersWithSplit "out" 1
        ⟨false, [⟨FetchResult.page ⟨some 1, some [⟨3, Option.none⟩], Option.none, 0⟩,
          []⟩]⟩).files ∧
    ((FileRec.mk "out.jsonl" [3] true 1).isClosed = true ∧
      (FileRec.mk "out.jsonl" [3] true 1).closeCount = 1) :=
  ⟨by decide,
    split_files_closed_exactly_once "out" 1
      ⟨false, [⟨FetchResult.page ⟨some 1, some [⟨3, Option.none⟩], Option.none, 0⟩, []⟩]⟩
      (FileRec.mk "out.jsonl" [3] true 1) (by decide)⟩

/-- C7: in a run that returns normally, the total number of record lines
written across all output files equals the returned `fetched_count` —
`fetched_count += 1` (line 257) runs exactly once per `current_file.write`
(line 255), and lines are written nowhere else. -/
theorem split_fetched_count_matches (base : String) (mb : Nat) (env : Env)
    (h : (searchPapersWithSplit base mb env).raised = false) :
    ((searchPapersWithSplit base mb env).files.map
      (fun f => f.lines.length)).sum =
      (searchPapersWithSplit base mb env).fetchedCount := by
  cases hfo : env.firstOpenFail with
  | true =>
    unfold searchPapersWithSplit at h
    rw [hfo] at h
    simp at h
  | false =>
    obtain ⟨hfl, -, hfc, -⟩ := searchPapers_proj base mb env hfo
    rw [hfl, hfc, List.map_reverse, List.sum_reverse, finalize_map_lines]
    exact (inv_final base mb env).countEq

theorem split_fetched_count_matches_witness :
    (searchPapersWithSplit "out" 1
      ⟨false, [⟨FetchResult.page ⟨some 1, some [⟨3, Option.none⟩], Option.none, 0⟩,
        []⟩]⟩).raised = false ∧
    ((searchPapersWithSplit "out" 1
      ⟨false, [⟨FetchResult.page ⟨some 1, some [⟨3, Option.none⟩], Option.none, 0⟩,
        []⟩]⟩).files.map (fun f => f.lines.length)).sum =
      (searchPapersWithSplit "out" 1
        ⟨false, [⟨FetchResult.page ⟨some 1, some [⟨3, Option.none⟩], Option.none, 0⟩,
          []⟩]⟩).fetchedCount :=
  ⟨by decide,
    split_fetched_count_matches "out" 1
      ⟨false, [⟨FetchResult.page ⟨some 1, some [⟨3, Option.none⟩], Option.none, 0⟩, []⟩]⟩
      (by decide)⟩

/-- C3: every completed (closed) output file except possibly the first has a
final size exceeding the threshold `T = max_size_mb * 1024 * 1024` by no more
than its own first line (the record that triggered the rollover creating it),
and if such a file's size exceeds `T` it contains exactly that one record. -/
theorem split_rollover_size_bound (base : String) (mb : Nat) (env : Env) :
    ∀ f ∈ (searchPapersWithSplit base mb env).files.tail, f.isClosed = true →
      f.lines.sum ≤ mb * 1024 * 1024 + f.lines.headD 0 ∧
      (mb * 1024 * 1024 < f.lines.sum → f.lines.length = 1) := by
  intro f hf _
  cases hfo : env.firstOpenFail with
  | true =>
    unfold searchPapersWithSplit at hf
    rw [hfo] at hf
    simp at hf
  | false =>
    rw [(searchPapers_proj base mb env hfo).1, tail_reverse, List.mem_reverse] at hf
    have hinv := inv_final base mb env
    cases hfs : (runLoop (mb * 1024 * 1024) base env.fetches (initState base)).files with
    | nil => rw [hfs] at hf; simp [finalizeFiles] at hf
    | cons cur rest =>
      rw [hfs] at hf
      have heq : finalizeFiles (cur :: rest) = closeFile cur :: rest := rfl
      rw [heq] at hf
      apply pbound_conseq
      cases rest with
      | nil => simp at hf
      | cons r rs =>
        rw [List.dropLast_cons₂] at hf
        rcases List.mem_cons.mp hf with rfl | hf
        · exact pbound_closeFile _ cur (hinv.sizeBound cur
            (by rw [hfs, List.dropLast_cons₂]; exact List.mem_cons_self ..))
        · exact hinv.sizeBound f
            (by rw [hfs, List.dropLast_cons₂]; exact List.mem_cons_of_mem _ hf)

theorem split_rollover_size_bound_witness :
    FileRec.mk "b_part2.jsonl" [5] true 1 ∈
      (searchPapersWithSplit "b" 0
        ⟨false, [⟨FetchResult.page ⟨some 2,
          some [⟨1, Option.none⟩, ⟨5, Option.none⟩], Option.none, 0⟩, []⟩]⟩).files.tail ∧
    (FileRec.mk "b_part2.jsonl" [5] true 1).isClosed = true ∧
    ((FileRec.mk "b_part2.jsonl" [5] true 1).lines.sum ≤
        0 * 1024 * 1024 + (FileRec.mk "b_part2.jsonl" [5] true 1).lines.headD 0 ∧
      (0 * 1024 * 1024 < (FileRec.mk "b_part2.jsonl" [5] true 1).lines.sum →
        (FileRec.mk "b_part2.jsonl" [5] true 1).lines.length = 1)) :=
  ⟨by decide, by decide,
    split_rollover_size_bound "b" 0
      ⟨false, [⟨FetchResult.page ⟨some 2,
        some [⟨1, Option.none⟩, ⟨5, Option.none⟩], Option.none, 0⟩, []⟩]⟩
      (FileRec.mk "b_part2.jsonl" [5] true 1) (by decide) (by decide)⟩

/-- C9: the files created by a size-bounded run are named, in creation
order, `{base}.jsonl` for the first and `{base}_part{N}.jsonl` with
`N = 2, 3, …` for every subsequent rollover file. -/
theorem split_output_file_names (base : String) (mb : Nat) (env : Env) :
    (searchPapersWithSplit base mb env).outputFiles =
      (List.range (searchPapersWithSplit base mb env).outputFiles.length).map
        (fun i => if i = 0 then base ++ ".jsonl"
          else base ++ "_part" ++ toString (i + 1) ++ ".jsonl") := by
  cases hfo : env.firstOpenFail with
  | true =>
    unfold searchPapersWithSplit
    rw [hfo]
    rfl
  | false =>
    obtain ⟨-, hof, -, -⟩ := searchPapers_proj base mb env hfo
    have hinv := inv_final base mb env
    rw [hof, List.map_reverse, finalize_map_name, hinv.fnames, namesDown_reverse,
      List.length_map, List.length_range]
    refine List.map_congr_left ?_
    intro i _
    by_cases hi : i = 0
    · subst hi; simp [fileName]
    · rw [fileName, if_neg (by omega), if_neg hi]

/-- C2, counterexample: a run that fetches zero records (here: a single page
whose decoded body is `{"total": 0, "data": []}`) returns normally having
created exactly one output file, `{base}.jsonl`, containing no record — so
"every output file created during a run contains at least one record (no
file is empty)" fails on the code. -/
theorem split_no_empty_file_counterexample :
    (searchPapersWithSplit "out" 100
        ⟨false, [⟨FetchResult.page ⟨some 0, some [], Option.none, 0⟩, []⟩]⟩).raised
      = false ∧
    (searchPapersWithSplit "out" 100
        ⟨false, [⟨FetchResult.page ⟨some 0, some [], Option.none, 0⟩, []⟩]⟩).outputFiles
      = ["out.jsonl"] ∧
    (searchPapersWithSplit "out" 100
        ⟨false, [⟨FetchResult.page ⟨some 0, some [], Option.none, 0⟩, []⟩]⟩).files.map
        (fun f => f.lines) = [[]] ∧
    (searchPapersWithSplit "out" 100
        ⟨false, [⟨FetchResult.page ⟨some 0, some [], Option.none, 0⟩, []⟩]⟩).fetchedCount
      = 0 := by
  decide

/-- C2 (amended): before writing a line, the current file is closed and a new
file opened iff the line's byte length plus the file's accumulated size
exceeds the threshold AND at least one record has been written globally
(line 240); hence the very first record always goes to the first file and, in
a normally-returning run, every rollover-created file holds at least one
record and the first file holds at least one record whenever any record was
fetched — but a run that fetches zero records leaves the (single) first file
empty. -/
theorem split_rollover_iff_amended :
    (∀ (T : Nat) (base : String) (p : Paper) (s : WState) (cur : FileRec)
        (rest : List FileRec), s.raised = false → s.files = cur :: rest →
      (((writePaper T base p Fault.ok s).files.length = s.files.length + 1 ∧
        (writePaper T base p Fault.ok s).files.tail.head? = some (closeFile cur)) ↔
        (T < cur.size + p.lineSize ∧ 0 < s.fetchedCount))) ∧
    (∀ (base : String) (mb : Nat) (env : Env),
      (searchPapersWithSplit base mb env).raised = false →
      ((0 < (searchPapersWithSplit base mb env).fetchedCount →
        ∀ f, (searchPapersWithSplit base mb env).files.head? = some f →
          f.lines ≠ []) ∧
       (∀ f ∈ (searchPapersWithSplit base mb env).files.tail, f.lines ≠ []))) := by
  constructor
  · intro T base p s cur rest hr hfs
    rw [writePaper_eq T base p Fault.ok s cur rest hr hfs, hfs]
    by_cases hc : T < cur.size + p.lineSize ∧ 0 < s.fetchedCount
    · rw [if_pos hc]
      refine iff_of_true ⟨by simp, rfl⟩ hc
    · rw [if_neg hc]
      refine iff_of_false ?_ hc
      show ¬(({ s with
          files := { cur with lines := cur.lines ++ [p.lineSize] } :: rest,
          fetchedCount := s.fetchedCount + 1,
          citations := appendCitation p s.citations }).files.length =
            (cur :: rest).length + 1 ∧ _)
      rintro ⟨h1, -⟩
      simp only [List.length_cons] at h1
      omega
  · intro base mb env h
    cases hfo : env.firstOpenFail with
    | true =>
      unfold searchPapersWithSplit at h
      rw [hfo] at h
      simp at h
    | false =>
      obtain ⟨hfl, -, hfc, hrr⟩ := searchPapers_proj base mb env hfo
      have hinv := inv_final base mb env
      have hr : (runLoop (mb * 1024 * 1024) base env.fetches
          (initState base)).raised = false := by
        rw [← hrr]; exact h
      constructor
      · intro hpos f hhead
        rw [hfl, List.head?_reverse] at hhead
        rw [hfc] at hpos
        cases hfs : (runLoop (mb * 1024 * 1024) base env.fetches (initState base)).files with
        | nil => rw [hfs] at hhead; simp [finalizeFiles] at hhead
        | cons cur rest =>
          rw [hfs] at hhead
          have heq : finalizeFiles (cur :: rest) = closeFile cur :: rest := rfl
          rw [heq] at hhead
          cases rest with
          | nil =>
            simp only [List.getLast?_singleton, Option.some.injEq] at hhead
            have hne := hinv.firstNonempty hr hpos cur (by rw [hfs]; rfl)
            rw [← hhead, closeFile_lines]
            exact hne
          | cons r rs =>
            rw [List.getLast?_cons_cons] at hhead
            exact hinv.firstNonempty hr hpos f
              (by rw [hfs, List.getLast?_cons_cons]; exact hhead)
      · intro f hf
        rw [hfl, tail_reverse, List.mem_reverse] at hf
        cases hfs : (runLoop (mb * 1024 * 1024) base env.fetches (initState base)).files with
        | nil => rw [hfs] at hf; simp [finalizeFiles] at hf
        | cons cur rest =>
          rw [hfs] at hf
          have heq : finalizeFiles (cur :: rest) = closeFile cur :: rest := rfl
          rw [heq] at hf
          cases rest with
          | nil => simp at hf
          | cons r rs =>
            rw [List.dropLast_cons₂] at hf
            rcases List.mem_cons.mp hf with rfl | hf
            · rw [closeFile_lines]
              exact hinv.midNonempty hr cur
                (by rw [hfs, List.dropLast_cons₂]; exact List.mem_cons_self ..)
            · exact hinv.midNonempty hr f
                (by rw [hfs, List.dropLast_cons₂]; exact List.mem_cons_of_mem _ hf)

theorem split_rollover_iff_amended_witness :
    (searchPapersWithSplit "b" 0
      ⟨false, [⟨FetchResult.page ⟨some 5,
        some [⟨1, Option.none⟩, ⟨1, Option.none⟩, ⟨1, Option.none⟩,
          ⟨1, Option.none⟩, ⟨1, Option.none⟩], Option.none, 0⟩, []⟩]⟩).raised = false ∧
    ((0 < (searchPapersWithSplit "b" 0
        ⟨false, [⟨FetchResult.page ⟨some 5,
          some [⟨1, Option.none⟩, ⟨1, Option.none⟩, ⟨1, Option.none⟩,
            ⟨1, Option.none⟩, ⟨1, Option.none⟩], Option.none, 0⟩, []⟩]⟩).fetchedCount →
      ∀ f, (searchPapersWithSplit "b" 0
        ⟨false, [⟨FetchResult.page ⟨some 5,
          some [⟨1, Option.none⟩, ⟨1, Option.none⟩, ⟨1, Option.none⟩,
            ⟨1, Option.none⟩, ⟨1, Option.none⟩], Option.none, 0⟩, []⟩]⟩).files.head?
          = some f → f.lines ≠ []) ∧
     (∀ f ∈ (searchPapersWithSplit "b" 0
        ⟨false, [⟨FetchResult.page ⟨some 5,
          some [⟨1, Option.none⟩, ⟨1, Option.none⟩, ⟨1, Option.none⟩,
            ⟨1, Option.none⟩, ⟨1, Option.none⟩], Option.none, 0⟩, []⟩]⟩).files.tail,
        f.lines ≠ [])) ∧
    (searchPapersWithSplit "b" 0
      ⟨false, [⟨FetchResult.page ⟨some 5,
        some [⟨1, Option.none⟩, ⟨1, Option.none⟩, ⟨1, Option.none⟩,
          ⟨1, Option.none⟩, ⟨1, Option.none⟩], Option.none, 0⟩, []⟩]⟩).outputFiles.length
      = 5 ∧
    (searchPapersWithSplit "b" 0
      ⟨false, [⟨FetchResult.page ⟨some 5,
        some [⟨1, Option.none⟩, ⟨1, Option.none⟩, ⟨1, Option.none⟩,
          ⟨1, Option.none⟩, ⟨1, Option.none⟩], Option.none, 0⟩, []⟩]⟩).files.map
      (fun f => f.lines) = [[1], [1], [1], [1], [1]] :=
  ⟨by decide,
    split_rollover_iff_amended.2 "b" 0
      ⟨false, [⟨FetchResult.page ⟨some 5,
        some [⟨1, Option.none⟩, ⟨1, Option.none⟩, ⟨1, Option.none⟩,
          ⟨1, Option.none⟩, ⟨1, Option.none⟩], Option.none, 0⟩, []⟩]⟩ (by decide),
    by decide, by decide⟩

/-- C10: a returned page with an empty record list but a truthy continuation
token does not terminate the loop — no record is written for it and the next
fetch is issued carrying that token — while a result decoding to an empty
JSON object, or a page whose token is absent or the empty string, terminates
the loop through the normal non-error exit (lines 222-224 and 266-269). -/
theorem loop_empty_page_behavior (T : Nat) (base : String) (step : FetchStep)
    (rest : List FetchStep) (s : WState) (hr : s.raised = false) :
    (∀ r, step.result = FetchResult.page r → r.isEmptyObj = false →
      r.data = some [] → ∀ t, r.token = some t → t ≠ "" →
      ∃ s2, runLoop T base (step :: rest) s = runLoop T base rest s2 ∧
        s2.fetchedCount = s.fetchedCount ∧ s2.files = s.files ∧
        s2.paramsToken = some t ∧
        s2.requestTokens = s.requestTokens ++ [s.paramsToken]) ∧
    (∀ r, step.result = FetchResult.page r → r.isEmptyObj = true →
      runLoop T base (step :: rest) s =
        { s with requestTokens := s.requestTokens ++ [s.paramsToken] }) ∧
    (∀ r, step.result = FetchResult.page r → r.isEmptyObj = false →
      (r.token = Option.none ∨ r.token = some "") →
      runLoop T base (step :: rest) s = pageStep T base r step.faults s) := by
  obtain ⟨res, faults⟩ := step
  refine ⟨?_, ?_, ?_⟩
  · intro r hres hempty hdata t htok htne
    have hres' : res = FetchResult.page r := hres
    subst hres'
    have hps : pageStep T base r faults s =
        pageTotal r { s with requestTokens := s.requestTokens ++ [s.paramsToken] } := by
      unfold pageStep
      rw [hdata]
      rfl
    have hraisedPS : (pageStep T base r faults s).raised = false := by
      rw [hps, (pageTotal_proj r _).2.2.2]
      exact hr
    have hgoal : runLoop T base (⟨FetchResult.page r, faults⟩ :: rest) s =
        runLoop T base rest
          { (pageStep T base r faults s) with
              paramsToken := some t,
              pageNum := (pageStep T base r faults s).pageNum + 1 } := by
      rw [runLoop_cons_page T base r faults rest s hempty]
      rw [if_neg (by rw [hraisedPS]; simp)]
      split
      · simp_all
      · next t' htok' =>
        rw [htok] at htok'
        injection htok' with ht'
        subst ht'
        rw [if_neg htne]
    refine ⟨_, hgoal, ?_, ?_, rfl, ?_⟩
    · show (pageStep T base r faults s).fetchedCount = s.fetchedCount
      rw [hps, (pageTotal_proj r _).2.1]
    · show (pageStep T base r faults s).files = s.files
      rw [hps, (pageTotal_proj r _).1]
    · show (pageStep T base r faults s).requestTokens =
        s.requestTokens ++ [s.paramsToken]
      rw [hps, (pageTotal_proj r _).2.2.1]
  · intro r hres hempty
    have hres' : res = FetchResult.page r := hres
    subst hres'
    exact runLoop_cons_page_empty T base r faults rest s hempty
  · intro r hres hempty htok
    have hres' : res = FetchResult.page r := hres
    subst hres'
    rw [runLoop_cons_page T base r faults rest s hempty]
    by_cases hrs : (pageStep T base r faults s).raised = true
    · rw [if_pos hrs]
    · rw [if_neg hrs]
      rcases htok with htok | htok
      · rw [htok]
      · rw [htok]
        show (if ("" : String) = "" then _ else _) = _
        rw [if_pos rfl]

theorem loop_empty_page_behavior_witness :
    ∃ s2, runLoop 0 "b"
        [⟨FetchResult.page ⟨some 1, some [], some "tk", 0⟩, []⟩] (initState "b") =
      runLoop 0 "b" [] s2 ∧
      s2.fetchedCount = (initState "b").fetchedCount ∧
      s2.files = (initState "b").files ∧
      s2.paramsToken = some "tk" ∧
      s2.requestTokens = (initState "b").requestTokens ++ [(initState "b").paramsToken] :=
  (loop_empty_page_behavior 0 "b"
      ⟨FetchResult.page ⟨some 1, some [], some "tk", 0⟩, []⟩ [] (initState "b") rfl).1
    ⟨some 1, some [], some "tk", 0⟩ rfl (by decide) rfl "tk" rfl (by decide)

end PaperFetch
